import Mathlib

/-
Verification of the category crawler in src/crawler.py against its
natural-language specification.

The Python program is shallowly embedded: Python strings are modeled by
`String` / `List Char`; character classes of the `re` module and of
`str` methods (`\w`, `\d`, `str.isdigit`) are modeled with their ASCII
semantics; network and file effects are passed in explicitly as
functions and list-valued state.  BeautifulSoup is an external
collaborator: a parsed document is modeled by the results of the
selector queries the crawler performs (`Doc` below), and a tag's
truthiness (bs4 `Tag.__len__`, false for a childless tag) is carried as
an explicit `truthy` bit on each element.
-/

namespace Crawler

/-! ### Python string primitives -/

/-- Python `s.lower()` (ASCII model of the Unicode-aware original). -/
def pyLower (s : String) : String := (s.toList.map Char.toLower).asString

/-- Python `s.rstrip(c)` for a one-character strip set: remove the
trailing run of `c`. -/
def pyRstrip (c : Char) (l : List Char) : List Char :=
  (l.reverse.dropWhile (fun d => d == c)).reverse

/-- Python `s.strip(c)` for a one-character strip set: remove the leading
and trailing runs of `c`. -/
def pyStrip (c : Char) (l : List Char) : List Char :=
  ((l.dropWhile (fun d => d == c)).reverse.dropWhile (fun d => d == c)).reverse

/-- Python `s.split(sep)` for a one-character separator. -/
def splitOnChar (sep : Char) : List Char → List (List Char)
  | [] => [[]]
  | c :: cs =>
    if c == sep then [] :: splitOnChar sep cs
    else
      match splitOnChar sep cs with
      | [] => [[c]]
      | s :: ss => (c :: s) :: ss

/-! ### `urllib.parse.unquote`

`unquote` turns `%XX` escapes into bytes and decodes the resulting byte
runs as UTF-8 with `errors='replace'`; characters outside escapes pass
through (ASCII characters travel through the byte buffer, non-ASCII
characters are passed through directly, as in CPython's split on ASCII
runs). -/

/-- Value of a hexadecimal digit, both cases accepted (CPython
`_hextobyte`). -/
def hexVal (c : Char) : Option Nat :=
  if '0' ≤ c ∧ c ≤ '9' then some (c.toNat - '0'.toNat)
  else if 'a' ≤ c ∧ c ≤ 'f' then some (c.toNat - 'a'.toNat + 10)
  else if 'A' ≤ c ∧ c ≤ 'F' then some (c.toNat - 'A'.toNat + 10)
  else none

/-- The Unicode replacement character produced by `errors='replace'`. -/
def replChar : Char := Char.ofNat 0xFFFD

/-- A UTF-8 continuation byte. -/
def isCont (b : Nat) : Bool := decide (0x80 ≤ b ∧ b ≤ 0xBF)

/-- Admissible second byte of a three-byte sequence (excludes overlong
encodings and surrogates, as CPython's UTF-8 decoder does). -/
def cont2ok (b b2 : Nat) : Bool :=
  if b = 0xE0 then decide (0xA0 ≤ b2 ∧ b2 ≤ 0xBF)
  else if b = 0xED then decide (0x80 ≤ b2 ∧ b2 ≤ 0x9F)
  else isCont b2

/-- Admissible second byte of a four-byte sequence (excludes overlong
encodings and code points above U+10FFFF). -/
def cont3ok (b b2 : Nat) : Bool :=
  if b = 0xF0 then decide (0x90 ≤ b2 ∧ b2 ≤ 0xBF)
  else if b = 0xF4 then decide (0x80 ≤ b2 ∧ b2 ≤ 0x8F)
  else isCont b2

/-- UTF-8 decoding with replacement of maximal invalid subparts,
matching CPython's `bytes.decode('utf-8', errors='replace')`.  The
`fuel` argument (one unit per consumed byte, initially the byte count)
only drives structural recursion. -/
def utf8DecodeAux : Nat → List Nat → List Char
  | 0, _ => []
  | _ + 1, [] => []
  | fuel + 1, b :: bs =>
    if b < 0x80 then Char.ofNat b :: utf8DecodeAux fuel bs
    else if b < 0xC2 then replChar :: utf8DecodeAux fuel bs
    else if b < 0xE0 then
      match bs with
      | [] => [replChar]
      | b2 :: bs2 =>
        if isCont b2 then
          Char.ofNat ((b - 0xC0) * 0x40 + (b2 - 0x80)) :: utf8DecodeAux fuel bs2
        else replChar :: utf8DecodeAux fuel bs
    else if b < 0xF0 then
      match bs with
      | [] => [replChar]
      | b2 :: bs2 =>
        if cont2ok b b2 then
          match bs2 with
          | [] => [replChar]
          | b3 :: bs3 =>
            if isCont b3 then
              Char.ofNat ((b - 0xE0) * 0x1000 + (b2 - 0x80) * 0x40 + (b3 - 0x80)) ::
                utf8DecodeAux fuel bs3
            else replChar :: utf8DecodeAux fuel bs2
        else replChar :: utf8DecodeAux fuel bs
    else if b < 0xF5 then
      match bs with
      | [] => [replChar]
      | b2 :: bs2 =>
        if cont3ok b b2 then
          match bs2 with
          | [] => [replChar]
          | b3 :: bs3 =>
            if isCont b3 then
              match bs3 with
              | [] => [replChar]
              | b4 :: bs4 =>
                if isCont b4 then
                  Char.ofNat ((b - 0xF0) * 0x40000 + (b2 - 0x80) * 0x1000 +
                      (b3 - 0x80) * 0x40 + (b4 - 0x80)) :: utf8DecodeAux fuel bs4
                else replChar :: utf8DecodeAux fuel bs3
            else replChar :: utf8DecodeAux fuel bs2
        else replChar :: utf8DecodeAux fuel bs
    else replChar :: utf8DecodeAux fuel bs

def utf8Decode (bs : List Nat) : List Char := utf8DecodeAux bs.length bs

/-- Scanner for `unquote`: `buf` is the pending byte run (escapes and
literal ASCII characters); a non-ASCII character flushes the run.  The
`fuel` argument (one unit per consumed character) only drives structural
recursion. -/
def unquoteScanAux : Nat → List Char → List Nat → List Char
  | 0, _, buf => utf8Decode buf
  | _ + 1, [], buf => utf8Decode buf
  | fuel + 1, c :: rest, buf =>
    if c == '%' then
      match rest with
      | h1 :: h2 :: rest2 =>
        match hexVal h1, hexVal h2 with
        | some a, some b => unquoteScanAux fuel rest2 (buf ++ [16 * a + b])
        | _, _ => unquoteScanAux fuel rest (buf ++ [37])
      | _ => unquoteScanAux fuel rest (buf ++ [37])
    else if c.val < 128 then unquoteScanAux fuel rest (buf ++ [c.toNat])
    else utf8Decode buf ++ c :: unquoteScanAux fuel rest []

/-- `urllib.parse.unquote` on a character list. -/
def unquoteChars (cs : List Char) : List Char := unquoteScanAux cs.length cs []

/-! ### SKU sanitization (`re.sub(r'[\W_]+', '-', slug).strip('-')[:50]`) -/

/-- A character kept by the sanitizer: not matched by Python's `[\W_]`.
This is the ASCII fragment of that class: Python's `\w` is
Unicode-aware, so the real program also keeps non-ASCII word characters
(e.g. Persian letters and digits), which this model collapses to the
separator.  The two agree exactly on ASCII characters; statements made
through this model about the sanitizer's output therefore only
constrain the ASCII side (or quantities insensitive to the class's
non-ASCII extension, such as lengths, origins of characters, and the
non-emptiness witnessed by an ASCII alphanumeric). -/
def keepChar (c : Char) : Bool := c.isAlphanum

/-- `re.sub(r'[\W_]+', '-', l)`: every maximal run of non-kept
characters becomes a single `'-'`.  The flag records whether the
previous character was part of such a run. -/
def collapseAux : Bool → List Char → List Char
  | _, [] => []
  | inRun, c :: cs =>
    if keepChar c then c :: collapseAux false cs
    else if inRun then collapseAux true cs
    else '-' :: collapseAux true cs

def collapseRuns (l : List Char) : List Char := collapseAux false l

/-- The slug the code derives: `unquote(url.rstrip('/').split('/')[-1])`
(`[-1]` on the never-empty result of `split`). -/
def rawSlugOf (url : String) : List Char :=
  (splitOnChar '/' (pyRstrip '/' url.toList)).getLastD []

def slugOf (url : String) : List Char := unquoteChars (rawSlugOf url)

/-- The derived SKU exactly as line 112 of src/crawler.py computes it:
`re.sub(r'[\W_]+', '-', slug).strip('-')[:50]`. -/
def codeDerivedSku (url : String) : String :=
  ((pyStrip '-' (collapseRuns (slugOf url))).take 50).asString

/-- Modelled from the spec's words, for comparison with the code: "the
last non-empty path segment" of the URL, read as the last non-empty
`'/'`-separated segment of the URL string (empty when the URL consists
of separators only). -/
def specLastNonEmptySegment (url : String) : List Char :=
  ((splitOnChar '/' url.toList).filter (fun s => !s.isEmpty)).getLastD []

/-- The spec's description of the derived SKU: last non-empty path
segment, percent-decoded, runs of non-alphanumerics collapsed to a
single separator, trimmed, truncated to 50 characters. -/
def specDerivedSku (url : String) : String :=
  ((pyStrip '-' (collapseRuns (unquoteChars (specLastNonEmptySegment url)))).take 50).asString

/-! ### `urllib.parse`: urlsplit / urlunsplit / urljoin

Model of the CPython hierarchical-URL machinery used by `urljoin`
(`urlparse`'s params component is not separated out: it stays inside the
path, which is faithful for the http(s) URLs the crawler handles). -/

/-- A character allowed in a URL scheme after the leading letter. -/
def schemeChar (c : Char) : Bool :=
  c.isAlphanum || c == '+' || c == '-' || c == '.'

/-- Walk to the first `':'`, requiring every character before it to be a
scheme character; `acc` holds the (reversed) scheme seen so far. -/
def splitSchemeAux (acc : List Char) : List Char → Option (List Char × List Char)
  | [] => none
  | c :: cs =>
    if c == ':' then some (acc.reverse, cs)
    else if schemeChar c then splitSchemeAux (c :: acc) cs
    else none

/-- CPython scheme detection: a leading ASCII letter, scheme characters
up to a `':'`.  Returns the (raw-case) scheme and the remainder. -/
def splitSchemeChars (cs : List Char) : Option (List Char × List Char) :=
  match cs with
  | [] => none
  | c :: _ => if c.isAlpha then splitSchemeAux [] cs else none

/-- The netloc extends up to the first `'/'`, `'?'` or `'#'`. -/
def netlocEnd (c : Char) : Bool := c == '/' || c == '?' || c == '#'

/-- Split a list at the first occurrence of `sep` (Python
`s.split(sep, 1)` when the separator occurs). -/
def breakAtChar (sep : Char) : List Char → Option (List Char × List Char)
  | [] => none
  | c :: cs =>
    if c == sep then some ([], cs)
    else (breakAtChar sep cs).map (fun pr => (c :: pr.1, pr.2))

structure UrlPartsC where
  scheme : List Char
  netloc : List Char
  path : List Char
  query : List Char
  frag : List Char
deriving Repr, DecidableEq

/-- CPython `urlsplit(url, scheme=dflt)`: scheme, then `//netloc`, then
fragment at the first `'#'`, then query at the first `'?'`. -/
def urlsplitChars (dflt : List Char) (cs : List Char) : UrlPartsC :=
  let schemeRest : List Char × List Char :=
    match splitSchemeChars cs with
    | some pr => (pr.1.map Char.toLower, pr.2)
    | none => (dflt, cs)
  let netlocRest : List Char × List Char :=
    if schemeRest.2.take 2 = ['/', '/'] then
      ((schemeRest.2.drop 2).takeWhile (fun c => !netlocEnd c),
       (schemeRest.2.drop 2).dropWhile (fun c => !netlocEnd c))
    else ([], schemeRest.2)
  let restFrag : List Char × List Char :=
    match breakAtChar '#' netlocRest.2 with
    | some pr => pr
    | none => (netlocRest.2, [])
  let pathQuery : List Char × List Char :=
    match breakAtChar '?' restFrag.1 with
    | some pr => pr
    | none => (restFrag.1, [])
  ⟨schemeRest.1, netlocRest.1, pathQuery.1, pathQuery.2, restFrag.2⟩

/-- CPython `urlunsplit`: an empty component is absent. -/
def urlunsplitChars (p : UrlPartsC) : List Char :=
  let u0 := p.path
  let u1 :=
    if p.netloc ≠ [] ∨ (u0 ≠ [] ∧ u0.take 2 = ['/', '/']) then
      '/' :: '/' :: (p.netloc ++ (if u0 ≠ [] ∧ u0.head? ≠ some '/' then '/' :: u0 else u0))
    else u0
  let u2 := if p.scheme ≠ [] then p.scheme ++ ':' :: u1 else u1
  let u3 := if p.query ≠ [] then u2 ++ '?' :: p.query else u2
  if p.frag ≠ [] then u3 ++ '#' :: p.frag else u3

/-- `urllib.parse.uses_relative`. -/
def usesRelative : List String :=
  ["", "ftp", "http", "gopher", "nntp", "imap", "wais", "file", "https",
   "shttp", "mms", "prospero", "rtsp", "rtspu", "sftp", "svn", "svn+ssh",
   "ws", "wss"]

/-- `urllib.parse.uses_netloc`. -/
def usesNetloc : List String :=
  ["", "ftp", "http", "gopher", "nntp", "telnet", "imap", "wais", "file",
   "mms", "https", "shttp", "snews", "prospero", "rtsp", "rtspu", "rsync",
   "svn", "svn+ssh", "sftp", "nfs", "git", "git+ssh", "ws", "wss",
   "itms-services"]

/-- `segments[1:-1] = filter(None, segments[1:-1])`: drop empty segments
strictly between the first and the last. -/
def fixMiddle (segs : List (List Char)) : List (List Char) :=
  match segs with
  | [] => []
  | [a] => [a]
  | a :: rest => a :: ((rest.dropLast.filter (fun s => !s.isEmpty)) ++ [rest.getLastD []])

/-- Merge a relative path into the base path's directory, as
`urljoin` does before dot-segment resolution. -/
def mergeSegs (bpath rpath : List Char) : List (List Char) :=
  let bparts0 := splitOnChar '/' bpath
  let bparts := if bparts0.getLastD [] ≠ [] then bparts0.dropLast else bparts0
  fixMiddle (bparts ++ splitOnChar '/' rpath)

/-- Dot-segment resolution and re-joining: `'..'` pops (ignoring
underflow), `'.'` is dropped, a trailing dot segment leaves a trailing
slash, and an empty join yields `'/'`. -/
def joinResolved (segs : List (List Char)) : List Char :=
  let resolved := segs.foldl
    (fun acc seg =>
      if seg = ['.', '.'] then acc.dropLast
      else if seg = ['.'] then acc
      else acc ++ [seg]) []
  let resolved :=
    if segs.getLastD [] = ['.'] ∨ segs.getLastD [] = ['.', '.'] then resolved ++ [[]]
    else resolved
  let j := List.intercalate ['/'] resolved
  if j = [] then ['/'] else j

/-- CPython `urljoin(base, url)` (params folded into the path). -/
def urljoinChars (base url : List Char) : List Char :=
  if base = [] then url
  else if url = [] then base
  else
    let b := urlsplitChars [] base
    let r := urlsplitChars b.scheme url
    if r.scheme ≠ b.scheme ∨ r.scheme.asString ∉ usesRelative then url
    else
      let netloc :=
        if r.scheme.asString ∈ usesNetloc then
          (if r.netloc ≠ [] then r.netloc else b.netloc)
        else r.netloc
      if r.scheme.asString ∈ usesNetloc ∧ r.netloc ≠ [] then
        urlunsplitChars ⟨r.scheme, r.netloc, r.path, r.query, r.frag⟩
      else if r.path = [] then
        let q := if r.query = [] then b.query else r.query
        urlunsplitChars ⟨r.scheme, netloc, b.path, q, r.frag⟩
      else
        let segments :=
          if r.path.head? = some '/' then splitOnChar '/' r.path
          else mergeSegs b.path r.path
        urlunsplitChars ⟨r.scheme, netloc, joinResolved segments, r.query, r.frag⟩

/-- `urllib.parse.urljoin` on strings. -/
def urljoin (base url : String) : String :=
  (urljoinChars base.toList url.toList).asString

/-- A string that parses with a scheme (an "absolute URL" in the sense
of the spec's images invariant). -/
def hasScheme (s : String) : Bool := (splitSchemeChars s.toList).isSome

/-- The page URL is an absolute http(s) URL with a host. -/
def httpAbsolute (s : String) : Bool :=
  let p := urlsplitChars [] s.toList
  (p.scheme == "http".toList || p.scheme == "https".toList) && !p.netloc.isEmpty

/-! ### Data model -/

/-- The normalized product record built by
`extract_product_data_from_soup` (the keys of the `product_data`
dict, lines 65-67 of src/crawler.py).  `price` models the Python float
as a rational. -/
structure Product where
  sku : String
  name : String
  description : String
  price : Rat
  status : String
  images : List String
  attributes : List (String × String)
  category : String
  source_url : String
  brand : String
  stock_quantity : Nat
deriving Repr, DecidableEq

/-- A BeautifulSoup element as the crawler observes it: its truthiness
(bs4 `Tag.__len__ > 0`), its stripped text (`get_text(strip=True)`; the
`separator='\n'` variant used for descriptions is modeled by the same
field), and its attribute mapping. -/
structure Elem where
  truthy : Bool
  text : String
  attrs : List (String × String)
deriving Repr, DecidableEq

/-- One `tr` of the `shop_attributes` table: `row.find('th')` and
`row.find('td')`. -/
structure AttrRow where
  th : Option Elem
  td : Option Elem
deriving Repr, DecidableEq

/-- A parsed document, given by the results of the selector queries the
crawler performs: `soup.select_one`, `soup.select`, and
`soup.find('table', class_='shop_attributes')`. -/
structure Doc where
  selectOne : String → Option Elem
  select : String → List Elem
  attrTable : Option (List AttrRow)

/-! ### Extractor (`extract_product_data_from_soup`) -/

/-- Lines 69-70: `h1.product_title` text, or the empty default. -/
def nameOf (doc : Doc) : String :=
  match doc.selectOne "h1.product_title" with
  | some e => if e.truthy then e.text else ""
  | none => ""

/-- `text.replace(',', '')`. -/
def removeCommas (l : List Char) : List Char := l.filter (fun c => !(c == ','))

/-- First match of `r'[\d,]+\.?\d*'` in a comma-free text: a maximal
digit run, an optional dot, a maximal following digit run. -/
def findNumToken (cs : List Char) : Option (List Char) :=
  let cs1 := cs.dropWhile (fun c => !c.isDigit)
  if cs1.isEmpty then none
  else
    let ds := cs1.takeWhile Char.isDigit
    match cs1.dropWhile Char.isDigit with
    | '.' :: r2 => some (ds ++ '.' :: r2.takeWhile Char.isDigit)
    | _ => some ds

def digitsToNat (l : List Char) : Nat :=
  l.foldl (fun n c => 10 * n + (c.toNat - 48)) 0

/-- Python `float()` on the tokens the price regex can produce
(`digits`, optionally `'.'` and more digits); anything else raises
`ValueError`, modeled as the error case. -/
def parseFloatE (tok : List Char) : Except String Rat :=
  let intPart := tok.takeWhile Char.isDigit
  if intPart.isEmpty then Except.error "ValueError"
  else
    match tok.dropWhile Char.isDigit with
    | [] => Except.ok (digitsToNat intPart)
    | '.' :: frac =>
      if frac.all Char.isDigit then
        Except.ok ((digitsToNat intPart : Rat) + (digitsToNat frac : Rat) / (10 : Rat) ^ frac.length)
      else Except.error "ValueError"
    | _ => Except.error "ValueError"

/-- Lines 72-75: price from the first numeric token of the price
element's comma-stripped text, default `0.00`. -/
def priceOf (doc : Doc) : Except String Rat :=
  match doc.selectOne ".price .woocommerce-Price-amount" with
  | some e =>
    if e.truthy then
      match findNumToken (removeCommas e.text.toList) with
      | some tok => parseFloatE tok
      | none => Except.ok 0
    else Except.ok 0
  | none => Except.ok 0

/-- Lines 77-82: first present description container wins. -/
def descOf (doc : Doc) : String :=
  match doc.selectOne "#tab-description .wc-tab-inner" with
  | some e =>
    if e.truthy then e.text
    else
      match doc.selectOne ".woocommerce-product-details__short-description" with
      | some e2 => if e2.truthy then e2.text else ""
      | none => ""
  | none =>
    match doc.selectOne ".woocommerce-product-details__short-description" with
    | some e2 => if e2.truthy then e2.text else ""
    | none => ""

/-- Python dict assignment `d[k] = v`: overwrite in place, append new
keys at the end. -/
def dictInsert (al : List (String × String)) (k v : String) : List (String × String) :=
  if (al.lookup k).isSome then al.map (fun p => if p.1 = k then (k, v) else p)
  else al ++ [(k, v)]

/-- Lines 87-92: fold over the attribute rows, also populating `brand`
from the first `'برند'` row while brand is still unset. -/
def processAttrRows : List AttrRow → List (String × String) × String →
    List (String × String) × String
  | [], st => st
  | row :: rest, (attrs, brand) =>
    match row.th, row.td with
    | some l, some v =>
      if l.truthy ∧ v.truthy then
        processAttrRows rest
          (dictInsert attrs l.text v.text,
           if l.text = "برند" ∧ brand = "" then v.text else brand)
      else processAttrRows rest (attrs, brand)
    | _, _ => processAttrRows rest (attrs, brand)

def attrsAndBrandOf (doc : Doc) : List (String × String) × String :=
  match doc.attrTable with
  | some rows => processAttrRows rows ([], "")
  | none => ([], "")

/-- Line 95: the gallery selector string, verbatim. -/
def imageSelectors : String :=
  "figure.woocommerce-product-gallery__image a, .woocommerce-product-gallery__image img"

/-- Line 96: attribute probing order. -/
def imageAttributePriority : List String :=
  ["href", "data-large_image", "data-src", "src"]

/-- Lines 99-103: the first present-and-non-empty attribute in priority
order, resolved against the page URL. -/
def pickImageUrl (url : String) (e : Elem) : Option String :=
  (imageAttributePriority.findSome? fun a =>
    match e.attrs.lookup a with
    | some v => if v = "" then none else some v
    | none => none).map (fun v => urljoin url v)

/-- Line 104: accumulate truthy, not-yet-seen URLs in discovery order. -/
def accumUnique (f : Elem → Option String) (acc : List String) :
    List Elem → List String
  | [] => acc
  | e :: es =>
    match f e with
    | some u =>
      if u ≠ "" ∧ u ∉ acc then accumUnique f (acc ++ [u]) es
      else accumUnique f acc es
    | none => accumUnique f acc es

def imagesOf (doc : Doc) (url : String) : List String :=
  accumUnique (pickImageUrl url) [] (doc.select imageSelectors)

/-- Lines 107-112: the SKU element's text when the element is truthy and
its text is not the case-insensitive placeholder, else the URL-derived
slug. -/
def skuOf (doc : Doc) (url : String) : String :=
  match doc.selectOne ".sku" with
  | some e =>
    if e.truthy ∧ pyLower e.text ≠ "n/a" then e.text else codeDerivedSku url
  | none => codeDerivedSku url

/-- Line 114: synthesize a name when none was extracted. -/
def finalNameOf (doc : Doc) (url : String) : String :=
  let n := nameOf doc
  if n = "" then "Unknown Product - " ++ skuOf doc url else n

/-- Lines 65-115: the fields of the returned `product_data` dict. -/
def productOf (doc : Doc) (url : String) (price : Rat) : Product :=
  let ab := attrsAndBrandOf doc
  { sku := skuOf doc url
    name := finalNameOf doc url
    description := descOf doc
    price := price
    status := "PendingReview"
    images := imagesOf doc url
    attributes := ab.1
    category := ""
    source_url := url
    brand := ab.2
    stock_quantity := 0 }

/-- The body of the `try` block: the only genuinely fallible step in the
model is the float parse. -/
def extractBody (doc : Doc) (url : String) : Except String Product :=
  match priceOf doc with
  | Except.error e => Except.error e
  | Except.ok price => Except.ok (productOf doc url price)

/-- Lines 63-118: the `try`/`except` boundary — a raised error becomes a
`None` result. -/
def extract_product_data_from_soup (doc : Doc) (url : String) : Option Product :=
  match extractBody doc url with
  | Except.ok p => some p
  | Except.error _ => none

/-! ### Submitter (`send_product_to_api`) -/

/-- The environment's answer to one `requests.post`: a response with a
status code and a body, or a raised network error (a
`RequestException` whose `response` is `None`). -/
inductive PostOutcome where
  | resp (status : Nat) (body : String)
  | netErr
deriving Repr, DecidableEq

/-- What one call to `send_product_to_api` did: its return value,
whether a POST was issued, and the response body printed by the
`except` branch (if any). -/
structure SendResult where
  ok : Bool
  posted : Bool
  surfacedBody : Option String
deriving Repr, DecidableEq

/-- Python truthiness of an optional configuration string: unset and
empty are both falsy. -/
def truthyOpt : Option String → Bool
  | none => false
  | some s => !(s == "")

/-- `requests.Response.__bool__` is `self.ok`: truthy iff the status
code is below 400. -/
def responseTruthy (status : Nat) : Bool := decide (status < 400)

/-- Lines 132-145 of src/crawler.py.  `raise_for_status` raises exactly
for statuses 400-599; the raised error's `response` attribute is the
response, and the body is printed only when
`hasattr(e, 'response') and e.response` holds — the second conjunct is
the response's truthiness. -/
def send_product_to_api (apiUrl apiKey : Option String) (outcome : PostOutcome)
    (_product : Product) : SendResult :=
  if !truthyOpt apiUrl || !truthyOpt apiKey then ⟨false, false, none⟩
  else
    match outcome with
    | PostOutcome.resp status body =>
      if 400 ≤ status ∧ status < 600 then
        ⟨false, true, if responseTruthy status then some body else none⟩
      else ⟨true, true, none⟩
    | PostOutcome.netErr => ⟨false, true, none⟩

/-! ### Orchestrator (`main`, lines 167-206)

The per-item network behavior is passed in: `fetchF` is
`fetch_product_data` (fetch + extract; `none` on a network error or a
parse failure), `postF` gives the outcome of the POST issued for a given
product URL.  The dedup log file is the `log` list; its initial value is
the loaded `scraped_urls`. -/

structure RunState where
  count : Nat
  log : List String
  attempted : List String
  limitHit : Bool
deriving Repr, DecidableEq

/-- Lines 41-43: append one line to the log file. -/
def log_scraped_url (url : String) (log : List String) : List String := log ++ [url]

/-- Lines 187-201: the crawl loop.  `count` is
`products_scraped_this_run`; the loop breaks (reporting the limit) when
`count >= limit`; a URL is logged and counted only when fetch+extract
produced a product and the submission returned `True`. -/
def crawlLoop (fetchF : String → Option Product) (postF : String → PostOutcome)
    (apiUrl apiKey : Option String) (limit : Nat) :
    List String → RunState → RunState
  | [], st => st
  | url :: rest, st =>
    if st.count ≥ limit then { st with limitHit := true }
    else
      let st1 : RunState := { st with attempted := st.attempted ++ [url] }
      match fetchF url with
      | none => crawlLoop fetchF postF apiUrl apiKey limit rest st1
      | some p =>
        if (send_product_to_api apiUrl apiKey (postF url) p).ok then
          crawlLoop fetchF postF apiUrl apiKey limit rest
            { st1 with log := log_scraped_url url st1.log, count := st1.count + 1 }
        else crawlLoop fetchF postF apiUrl apiKey limit rest st1

/-- The href of each selected anchor, in order; `a['href']` raises an
uncaught `KeyError` (the surrounding `except` only catches
`RequestException`) when a selected anchor has no `href`. -/
def collectHrefs : List Elem → Except Unit (List String)
  | [] => Except.ok []
  | e :: es =>
    match e.attrs.lookup "href" with
    | some v =>
      match collectHrefs es with
      | Except.ok vs => Except.ok (v :: vs)
      | Except.error err => Except.error err
    | none => Except.error ()

/-- Lines 177-178: collect the product links from the listing page. -/
def collectProductLinks (doc : Doc) : Except Unit (List String) :=
  collectHrefs (doc.select "h3.wd-entities-title a")

/-- The terminal state of a run that reached the final
`"Crawler script finished."` report. -/
structure RunReport where
  state : RunState
  noNewReported : Bool
deriving Repr, DecidableEq

/-- Lines 177-206: the category run after the listing page has been
fetched.  `Except.error` models the process dying on an uncaught
exception before the terminal report. -/
def categoryRunAfterFetch (fetchF : String → Option Product)
    (postF : String → PostOutcome) (apiUrl apiKey : Option String)
    (limit : Nat) (scraped_urls : List String) (doc : Doc) :
    Except Unit RunReport :=
  match collectProductLinks doc with
  | Except.error e => Except.error e
  | Except.ok links =>
    let all_urls_on_page := links.dedup
    let new_urls_to_crawl := all_urls_on_page.filter (fun u => decide (u ∉ scraped_urls))
    let final := crawlLoop fetchF postF apiUrl apiKey limit new_urls_to_crawl
      ⟨0, scraped_urls, [], false⟩
    Except.ok ⟨final, decide (final.count = 0)⟩

/-! ### Lemmas about `splitOnChar` and the derived slug -/

theorem splitOnChar_ne_nil (sep : Char) (l : List Char) : splitOnChar sep l ≠ [] := by
  induction l with
  | nil => simp [splitOnChar]
  | cons c cs ih =>
    simp only [splitOnChar]
    split
    · simp
    · split
      · simp
      · simp

theorem splitOnChar_append_sep (sep : Char) (xs ys : List Char) :
    splitOnChar sep (xs ++ sep :: ys) = splitOnChar sep xs ++ splitOnChar sep ys := by
  induction xs with
  | nil => simp [splitOnChar]
  | cons x xs ih =>
    by_cases hx : (x == sep) = true
    · rw [List.cons_append]
      simp only [splitOnChar, hx, if_true]
      rw [ih]
      rfl
    · have hx' : (x == sep) = false := by simpa using hx
      rw [List.cons_append]
      simp only [splitOnChar, hx', Bool.false_eq_true, if_false]
      rw [ih]
      rcases hspl : splitOnChar sep xs with _ | ⟨s, ss⟩
      · exact absurd hspl (splitOnChar_ne_nil sep xs)
      · simp

theorem splitOnChar_snoc (sep c : Char) (xs : List Char) (hc : ¬ c = sep) :
    splitOnChar sep (xs ++ [c]) =
      (splitOnChar sep xs).dropLast ++ [(splitOnChar sep xs).getLastD [] ++ [c]] := by
  induction xs with
  | nil =>
    have hc' : (c == sep) = false := by simpa using hc
    simp [splitOnChar, hc']
  | cons x xs ih =>
    by_cases hx : (x == sep) = true
    · rw [List.cons_append]
      simp only [splitOnChar, hx, if_true]
      rw [ih]
      rcases hspl : splitOnChar sep xs with _ | ⟨s, ss⟩
      · exact absurd hspl (splitOnChar_ne_nil sep xs)
      · cases ss <;> simp [List.getLastD_eq_getLast?]
    · have hx' : (x == sep) = false := by simpa using hx
      rw [List.cons_append]
      simp only [splitOnChar, hx', Bool.false_eq_true, if_false]
      rw [ih]
      rcases hspl : splitOnChar sep xs with _ | ⟨s, ss⟩
      · exact absurd hspl (splitOnChar_ne_nil sep xs)
      · rcases ss with _ | ⟨t, ts⟩
        · simp [List.getLastD_eq_getLast?]
        · simp [List.getLastD_eq_getLast?]

theorem splitOnChar_getLastD (sep : Char) (l : List Char) :
    (splitOnChar sep l).getLastD [] =
      (l.reverse.takeWhile (fun c => !(c == sep))).reverse := by
  induction l using List.reverseRecOn with
  | nil => simp [splitOnChar]
  | append_singleton xs c ih =>
    by_cases hc : c = sep
    · subst hc
      have h := splitOnChar_append_sep c xs []
      simp only [splitOnChar] at h
      rw [h]
      simp [List.getLastD_eq_getLast?]
    · have hc' : (c == sep) = false := by simpa using hc
      rw [splitOnChar_snoc sep c xs hc]
      simp only [List.getLastD_eq_getLast?, List.getLast?_concat, Option.getD_some,
        List.reverse_append, List.reverse_cons, List.reverse_nil, List.nil_append,
        List.singleton_append, List.takeWhile_cons, hc', Bool.not_false, if_true]
      simp only [List.getLastD_eq_getLast?] at ih
      simp [ih]

theorem getLastD_filter_snoc (p : List Char → Bool) (l : List (List Char))
    (a : List Char) (ha : p a = true) :
    ((l ++ [a]).filter p).getLastD [] = a := by
  simp [List.filter_append, ha, List.getLastD_eq_getLast?]

theorem splitOnChar_filter_getLastD (sep : Char) (l : List Char) :
    (((splitOnChar sep l).filter (fun s => !s.isEmpty)).getLastD []) =
      (((l.reverse.dropWhile (fun c => c == sep)).takeWhile (fun c => !(c == sep))).reverse) := by
  induction l using List.reverseRecOn with
  | nil => simp [splitOnChar]
  | append_singleton xs c ih =>
    by_cases hc : c = sep
    · subst hc
      have h := splitOnChar_append_sep c xs []
      simp only [splitOnChar] at h
      rw [h]
      simpa [List.filter_append] using ih
    · have hc' : (c == sep) = false := by simpa using hc
      rw [splitOnChar_snoc sep c xs hc]
      rw [getLastD_filter_snoc _ _ _ (by simp)]
      simp only [List.reverse_append, List.reverse_cons, List.reverse_nil, List.nil_append,
        List.singleton_append, List.dropWhile_cons, hc', Bool.false_eq_true, if_false,
        List.takeWhile_cons, Bool.not_false, if_true]
      rw [splitOnChar_getLastD]

theorem rawSlugOf_eq_spec (url : String) :
    rawSlugOf url = specLastNonEmptySegment url := by
  unfold rawSlugOf specLastNonEmptySegment pyRstrip
  rw [splitOnChar_getLastD, splitOnChar_filter_getLastD, List.reverse_reverse]

/-- The code's slug pipeline (`rstrip`/`split`/`[-1]`) and the spec's
"last non-empty path segment" description agree for every URL string. -/
theorem codeDerivedSku_eq_spec (url : String) :
    codeDerivedSku url = specDerivedSku url := by
  unfold codeDerivedSku specDerivedSku slugOf
  rw [rawSlugOf_eq_spec]

/-! ### Lemmas about the sanitizer -/

theorem collapseAux_chars (l : List Char) : ∀ (b : Bool) (c : Char),
    c ∈ collapseAux b l → keepChar c = true ∨ c = '-' := by
  induction l with
  | nil => intro b c h; simp [collapseAux] at h
  | cons x xs ih =>
    intro b c h
    by_cases hk : keepChar x = true
    · simp only [collapseAux, hk, if_true, List.mem_cons] at h
      rcases h with rfl | h
      · exact Or.inl hk
      · exact ih false c h
    · simp only [collapseAux, hk, Bool.false_eq_true, if_false] at h
      cases b with
      | true => exact ih true c (by simpa using h)
      | false =>
        simp only [Bool.false_eq_true, if_false, List.mem_cons] at h
        rcases h with rfl | h
        · exact Or.inr rfl
        · exact ih true c h

/-- The sanitizer introduces no character other than the separator:
every output character is `'-'` or drawn from the input. -/
theorem collapseAux_src_mem (l : List Char) : ∀ (b : Bool) (c : Char),
    c ∈ collapseAux b l → c = '-' ∨ c ∈ l := by
  induction l with
  | nil => intro b c h; simp [collapseAux] at h
  | cons x xs ih =>
    intro b c h
    by_cases hk : keepChar x = true
    · simp only [collapseAux, hk, if_true, List.mem_cons] at h
      rcases h with rfl | h
      · exact Or.inr (List.mem_cons_self _ _)
      · rcases ih false c h with h' | h'
        · exact Or.inl h'
        · exact Or.inr (List.mem_cons_of_mem _ h')
    · simp only [collapseAux, hk, Bool.false_eq_true, if_false] at h
      cases b with
      | true =>
        rcases ih true c (by simpa using h) with h' | h'
        · exact Or.inl h'
        · exact Or.inr (List.mem_cons_of_mem _ h')
      | false =>
        simp only [Bool.false_eq_true, if_false, List.mem_cons] at h
        rcases h with rfl | h
        · exact Or.inl rfl
        · rcases ih true c h with h' | h'
          · exact Or.inl h'
          · exact Or.inr (List.mem_cons_of_mem _ h')

theorem collapseAux_keep_mem (l : List Char) : ∀ (b : Bool),
    (∃ c ∈ l, keepChar c = true) → ∃ c ∈ collapseAux b l, keepChar c = true := by
  induction l with
  | nil => intro b h; simp at h
  | cons x xs ih =>
    intro b h
    by_cases hk : keepChar x = true
    · exact ⟨x, by simp [collapseAux, hk], hk⟩
    · have h' : ∃ c ∈ xs, keepChar c = true := by
        rcases h with ⟨c, hc, hkc⟩
        rcases List.mem_cons.mp hc with rfl | hc'
        · exact absurd hkc hk
        · exact ⟨c, hc', hkc⟩
      rcases ih true h' with ⟨c, hc, hkc⟩
      refine ⟨c, ?_, hkc⟩
      cases b with
      | true => simpa [collapseAux, hk] using hc
      | false => simp [collapseAux, hk, List.mem_cons, hc]

theorem mem_dropWhile_of_not (p : Char → Bool) (l : List Char) (c : Char)
    (hc : c ∈ l) (hp : p c = false) : c ∈ l.dropWhile p := by
  induction l with
  | nil => simp at hc
  | cons x xs ih =>
    by_cases hx : p x = true
    · rcases List.mem_cons.mp hc with rfl | hc'
      · rw [hx] at hp; exact absurd hp (by simp)
      · simpa [List.dropWhile_cons, hx] using ih hc'
    · have hx' : p x = false := by simpa using hx
      simpa [List.dropWhile_cons, hx'] using hc

theorem mem_of_mem_dropWhile (p : Char → Bool) (l : List Char) (c : Char)
    (hc : c ∈ l.dropWhile p) : c ∈ l :=
  (List.dropWhile_sublist p (l := l)).subset hc

theorem mem_of_mem_pyStrip (d : Char) (l : List Char) (c : Char)
    (hc : c ∈ pyStrip d l) : c ∈ l := by
  unfold pyStrip at hc
  rw [List.mem_reverse] at hc
  have h1 := mem_of_mem_dropWhile _ _ _ hc
  rw [List.mem_reverse] at h1
  exact mem_of_mem_dropWhile _ _ _ h1

theorem mem_pyStrip_of_ne (d : Char) (l : List Char) (c : Char)
    (hc : c ∈ l) (hne : (c == d) = false) : c ∈ pyStrip d l := by
  unfold pyStrip
  rw [List.mem_reverse]
  refine mem_dropWhile_of_not _ _ _ ?_ hne
  rw [List.mem_reverse]
  exact mem_dropWhile_of_not _ _ _ hc hne

theorem take_ne_nil_of_ne_nil (l : List Char) (n : Nat) (hl : l ≠ []) (hn : 0 < n) :
    l.take n ≠ [] := by
  cases l with
  | nil => exact absurd rfl hl
  | cons x xs =>
    cases n with
    | zero => exact absurd hn (by simp)
    | succ m => simp

/-! ### Lemmas about the submitter -/

theorem send_ok_iff (apiUrl apiKey : Option String) (o : PostOutcome) (p : Product) :
    (send_product_to_api apiUrl apiKey o p).ok = true ↔
      truthyOpt apiUrl = true ∧ truthyOpt apiKey = true ∧
        ∃ st b, o = PostOutcome.resp st b ∧ ¬(400 ≤ st ∧ st < 600) := by
  unfold send_product_to_api
  cases hu : truthyOpt apiUrl with
  | false => simp [hu]
  | true =>
    cases hk : truthyOpt apiKey with
    | false => simp [hk]
    | true =>
      cases o with
      | netErr => simp
      | resp st b =>
        by_cases hs : 400 ≤ st ∧ st < 600
        · simp [hs, hs.1, hs.2]
        · simp [hs]
          omega

theorem send_surfacedBody_none (apiUrl apiKey : Option String) (o : PostOutcome)
    (p : Product) : (send_product_to_api apiUrl apiKey o p).surfacedBody = none := by
  unfold send_product_to_api
  split
  · rfl
  · cases o with
    | resp st b =>
      by_cases hs : 400 ≤ st ∧ st < 600
      · have hrt : responseTruthy st = false := by
          unfold responseTruthy
          simp only [decide_eq_false_iff_not]
          omega
        simp [hs, hrt]
      · simp [hs]
    | netErr => rfl

theorem send_posted_iff (apiUrl apiKey : Option String) (o : PostOutcome) (p : Product) :
    (send_product_to_api apiUrl apiKey o p).posted = true ↔
      truthyOpt apiUrl = true ∧ truthyOpt apiKey = true := by
  unfold send_product_to_api
  cases hu : truthyOpt apiUrl with
  | false => simp [hu]
  | true =>
    cases hk : truthyOpt apiKey with
    | false => simp [hk]
    | true =>
      cases o with
      | netErr => simp
      | resp st b =>
        by_cases hs : 400 ≤ st ∧ st < 600
        · simp [hs]
        · simp [hs]

/-! ### Lemmas about the crawl loop -/

theorem crawlLoop_count_le (fetchF : String → Option Product)
    (postF : String → PostOutcome) (apiUrl apiKey : Option String) (limit : Nat) :
    ∀ (urls : List String) (st : RunState), st.count ≤ limit →
      (crawlLoop fetchF postF apiUrl apiKey limit urls st).count ≤ limit := by
  intro urls
  induction urls with
  | nil => intro st h; simpa [crawlLoop] using h
  | cons u rest ih =>
    intro st h
    unfold crawlLoop
    by_cases hb : st.count ≥ limit
    · simpa [hb] using h
    · simp only [hb, if_false]
      cases hf : fetchF u with
      | none => exact ih _ h
      | some p =>
        by_cases hs : (send_product_to_api apiUrl apiKey (postF u) p).ok = true
        · simp only [hs, if_true]
          refine ih _ ?_
          show st.count + 1 ≤ limit
          omega
        · have hs' : (send_product_to_api apiUrl apiKey (postF u) p).ok = false := by
            simpa using hs
          simp only [hs', Bool.false_eq_true, if_false]
          exact ih _ h

theorem crawlLoop_log_mem (fetchF : String → Option Product)
    (postF : String → PostOutcome) (apiUrl apiKey : Option String) (limit : Nat) :
    ∀ (urls : List String) (st : RunState) (u : String),
      u ∈ (crawlLoop fetchF postF apiUrl apiKey limit urls st).log →
      u ∈ st.log ∨ (u ∈ urls ∧ ∃ p, fetchF u = some p ∧
        (send_product_to_api apiUrl apiKey (postF u) p).ok = true) := by
  intro urls
  induction urls with
  | nil => intro st u h; exact Or.inl (by simpa [crawlLoop] using h)
  | cons v rest ih =>
    intro st u h
    unfold crawlLoop at h
    by_cases hb : st.count ≥ limit
    · simp only [hb, if_true] at h
      exact Or.inl h
    · simp only [hb, if_false] at h
      cases hf : fetchF v with
      | none =>
        rw [hf] at h
        rcases ih _ u h with h' | ⟨hu, hp⟩
        · exact Or.inl h'
        · exact Or.inr ⟨List.mem_cons_of_mem _ hu, hp⟩
      | some p =>
        rw [hf] at h
        by_cases hs : (send_product_to_api apiUrl apiKey (postF v) p).ok = true
        · simp only [hs, if_true] at h
          rcases ih _ u h with h' | ⟨hu, hp⟩
          · unfold log_scraped_url at h'
            rcases List.mem_append.mp h' with h'' | h''
            · exact Or.inl (by simpa using h'')
            · have : u = v := by simpa using h''
              subst this
              exact Or.inr ⟨List.mem_cons_self _ _, p, hf, hs⟩
          · exact Or.inr ⟨List.mem_cons_of_mem _ hu, hp⟩
        · have hs' : (send_product_to_api apiUrl apiKey (postF v) p).ok = false := by
            simpa using hs
          simp only [hs', Bool.false_eq_true, if_false] at h
          rcases ih _ u h with h' | ⟨hu, hp⟩
          · exact Or.inl (by simpa using h')
          · exact Or.inr ⟨List.mem_cons_of_mem _ hu, hp⟩

theorem crawlLoop_all_success (fetchF : String → Option Product)
    (postF : String → PostOutcome) (apiUrl apiKey : Option String) (limit : Nat) :
    ∀ (urls : List String) (st : RunState),
      (∀ u ∈ urls, ∃ p, fetchF u = some p ∧
        (send_product_to_api apiUrl apiKey (postF u) p).ok = true) →
      st.count + urls.length ≤ limit →
      crawlLoop fetchF postF apiUrl apiKey limit urls st =
        ⟨st.count + urls.length, st.log ++ urls, st.attempted ++ urls, st.limitHit⟩ := by
  intro urls
  induction urls with
  | nil => intro st _ _; simp [crawlLoop]
  | cons v rest ih =>
    intro st hsucc hlen
    unfold crawlLoop
    have hb : ¬ st.count ≥ limit := by
      simp only [List.length_cons] at hlen
      omega
    simp only [hb, if_false]
    rcases hsucc v (List.mem_cons_self _ _) with ⟨p, hf, hs⟩
    rw [hf]
    simp only [hs, if_true]
    have hlen' : ({ st with
        attempted := st.attempted ++ [v], log := log_scraped_url v st.log,
        count := st.count + 1 } : RunState).count + rest.length ≤ limit := by
      show st.count + 1 + rest.length ≤ limit
      simp only [List.length_cons] at hlen
      omega
    rw [ih _ (fun u hu => hsucc u (List.mem_cons_of_mem _ hu)) hlen']
    unfold log_scraped_url
    simp only [List.length_cons, RunState.mk.injEq, List.append_assoc,
      List.singleton_append]
    refine ⟨by omega, trivial, trivial, trivial⟩

/-! ### Lemmas about `urljoin` -/

theorem urlsplitChars_scheme (dflt cs : List Char) :
    (urlsplitChars dflt cs).scheme =
      match splitSchemeChars cs with
      | some pr => pr.1.map Char.toLower
      | none => dflt := by
  unfold urlsplitChars
  cases splitSchemeChars cs <;> rfl

theorem splitSchemeAux_append (s : List Char) :
    ∀ (acc rest : List Char), (∀ c ∈ s, schemeChar c = true) →
      splitSchemeAux acc (s ++ ':' :: rest) = some (acc.reverse ++ s, rest) := by
  induction s with
  | nil => intro acc rest _; simp [splitSchemeAux]
  | cons c s' ih =>
    intro acc rest h
    have hc : schemeChar c = true := h c (List.mem_cons_self _ _)
    have hcne : (c == ':') = false := by
      by_cases hcc : c = ':'
      · subst hcc
        simp [schemeChar] at hc
      · simpa using hcc
    rw [List.cons_append]
    simp only [splitSchemeAux, hcne, Bool.false_eq_true, if_false, hc, if_true]
    rw [ih (c :: acc) rest (fun d hd => h d (List.mem_cons_of_mem _ hd))]
    simp

theorem splitSchemeChars_append (c0 : Char) (s rest : List Char)
    (h0 : c0.isAlpha = true) (h : ∀ c ∈ c0 :: s, schemeChar c = true) :
    splitSchemeChars ((c0 :: s) ++ ':' :: rest) = some (c0 :: s, rest) := by
  rw [List.cons_append]
  simp only [splitSchemeChars, h0, if_true]
  rw [show (c0 :: (s ++ ':' :: rest)) = (c0 :: s) ++ ':' :: rest from rfl]
  rw [splitSchemeAux_append (c0 :: s) [] rest h]
  simp

theorem splitSchemeChars_isSome_of_http (sch t : List Char)
    (h : sch = "http".toList ∨ sch = "https".toList) :
    (splitSchemeChars (sch ++ ':' :: t)).isSome = true := by
  rcases h with rfl | rfl
  · rw [show ("http".toList) = 'h' :: ['t', 't', 'p'] from rfl]
    rw [splitSchemeChars_append 'h' ['t', 't', 'p'] t (by decide) (by decide)]
    rfl
  · rw [show ("https".toList) = 'h' :: ['t', 't', 'p', 's'] from rfl]
    rw [splitSchemeChars_append 'h' ['t', 't', 'p', 's'] t (by decide) (by decide)]
    rfl

theorem urlunsplitChars_scheme_shape (p : UrlPartsC) (h : p.scheme ≠ []) :
    ∃ t, urlunsplitChars p = p.scheme ++ ':' :: t := by
  unfold urlunsplitChars
  simp only [h, ne_eq, not_false_iff, if_true]
  by_cases hq : p.query = [] <;> by_cases hf : p.frag = [] <;>
    simp [hq, hf, List.append_assoc]

theorem urljoinChars_hasScheme (base ref : List Char)
    (hb : (urlsplitChars [] base).scheme = "http".toList ∨
          (urlsplitChars [] base).scheme = "https".toList) :
    (splitSchemeChars (urljoinChars base ref)).isSome = true := by
  have hbne : (urlsplitChars [] base).scheme ≠ [] := by
    rcases hb with h | h <;> rw [h] <;> decide
  have hbase_some : (splitSchemeChars base).isSome = true := by
    rw [urlsplitChars_scheme] at hb
    cases hsp : splitSchemeChars base with
    | none => rw [hsp] at hb; rcases hb with h | h <;> exact absurd h.symm (by decide)
    | some pr => rfl
  by_cases h0 : base = []
  · subst h0
    simp [splitSchemeChars] at hbase_some
  · by_cases h1 : ref = []
    · subst h1
      unfold urljoinChars
      simp only [h0, if_false, if_true]
      exact hbase_some
    · unfold urljoinChars
      simp only [h0, h1, if_false]
      by_cases h2 : (urlsplitChars (urlsplitChars [] base).scheme ref).scheme ≠
            (urlsplitChars [] base).scheme ∨
          ((urlsplitChars (urlsplitChars [] base).scheme ref).scheme.asString ∉ usesRelative)
      · simp only [h2, if_true]
        rw [urlsplitChars_scheme] at h2
        cases hsp : splitSchemeChars ref with
        | none =>
          rw [hsp] at h2
          exfalso
          rcases h2 with h | h
          · exact h rfl
          · rcases hb with hh | hh <;> rw [hh] at h <;> exact h (by decide)
        | some pr => rfl
      · simp only [h2, if_false]
        have hsch : ∀ (nl pth q fr : List Char),
            (splitSchemeChars (urlunsplitChars
              ⟨(urlsplitChars (urlsplitChars [] base).scheme ref).scheme, nl, pth, q, fr⟩)).isSome
              = true := by
          intro nl pth q fr
          push_neg at h2
          rcases urlunsplitChars_scheme_shape
              ⟨(urlsplitChars (urlsplitChars [] base).scheme ref).scheme, nl, pth, q, fr⟩
              (by simpa [h2.1] using hbne) with ⟨t, ht⟩
          rw [ht]
          exact splitSchemeChars_isSome_of_http _ t (by simpa [h2.1] using hb)
        split
        · exact hsch _ _ _ _
        · split
          · exact hsch _ _ _ _
          · exact hsch _ _ _ _

/-- `urljoin` against an absolute http(s) base always yields a URL with
a scheme. -/
theorem urljoin_hasScheme (base ref : String) (hb : httpAbsolute base = true) :
    hasScheme (urljoin base ref) = true := by
  unfold httpAbsolute at hb
  have hb' : (urlsplitChars [] base.toList).scheme = "http".toList ∨
      (urlsplitChars [] base.toList).scheme = "https".toList := by
    have hb0 : (((urlsplitChars [] base.toList).scheme == "http".toList ||
        (urlsplitChars [] base.toList).scheme == "https".toList) &&
        !(urlsplitChars [] base.toList).netloc.isEmpty) = true := hb
    have hb1 : ((urlsplitChars [] base.toList).scheme == "http".toList ||
        (urlsplitChars [] base.toList).scheme == "https".toList) = true := by
      cases hx : ((urlsplitChars [] base.toList).scheme == "http".toList ||
          (urlsplitChars [] base.toList).scheme == "https".toList) with
      | true => rfl
      | false => rw [hx, Bool.false_and] at hb0; exact absurd hb0 (by decide)
    rcases Bool.or_eq_true_iff.mp hb1 with h | h
    · exact Or.inl (by simpa using h)
    · exact Or.inr (by simpa using h)
  unfold hasScheme urljoin
  rw [show ((urljoinChars base.toList ref.toList).asString).toList =
        urljoinChars base.toList ref.toList from rfl]
  exact urljoinChars_hasScheme _ _ hb'

/-! ### Lemmas about the image accumulator -/

theorem accumUnique_nodup (f : Elem → Option String) :
    ∀ (l : List Elem) (acc : List String), acc.Nodup → (accumUnique f acc l).Nodup := by
  intro l
  induction l with
  | nil => intro acc h; simpa [accumUnique] using h
  | cons e es ih =>
    intro acc h
    unfold accumUnique
    cases hf : f e with
    | none => exact ih acc h
    | some u =>
      show (if u ≠ "" ∧ u ∉ acc then accumUnique f (acc ++ [u]) es
        else accumUnique f acc es).Nodup
      by_cases hc : u ≠ "" ∧ u ∉ acc
      · rw [if_pos hc]
        refine ih _ ?_
        simp [List.nodup_append, h, hc.2]
      · rw [if_neg hc]
        exact ih acc h

theorem accumUnique_sublist (f : Elem → Option String) :
    ∀ (l : List Elem) (acc : List String),
      (accumUnique f acc l).Sublist (acc ++ l.filterMap f) := by
  intro l
  induction l with
  | nil => intro acc; simp [accumUnique]
  | cons e es ih =>
    intro acc
    unfold accumUnique
    cases hf : f e with
    | none => simpa [List.filterMap_cons, hf] using ih acc
    | some u =>
      simp only [List.filterMap_cons, hf]
      show (if u ≠ "" ∧ u ∉ acc then accumUnique f (acc ++ [u]) es
        else accumUnique f acc es).Sublist (acc ++ u :: es.filterMap f)
      by_cases hc : u ≠ "" ∧ u ∉ acc
      · rw [if_pos hc]
        have := ih (acc ++ [u])
        simpa [List.append_assoc] using this
      · rw [if_neg hc]
        refine (ih acc).trans ?_
        refine List.Sublist.append_left ?_ acc
        exact List.sublist_cons_self _ _

theorem accumUnique_mem (f : Elem → Option String) (l : List Elem) (u : String)
    (hu : u ∈ accumUnique f [] l) : u ∈ l.filterMap f := by
  have := (accumUnique_sublist f l []).subset hu
  simpa using this

/-! ### Extractor-level helper lemmas -/

theorem toList_asString (l : List Char) : l.asString.toList = l := rfl

theorem length_asString (l : List Char) : l.asString.length = l.length := rfl

theorem asString_ne_empty (l : List Char) (h : l ≠ []) : l.asString ≠ "" := by
  intro hc
  apply h
  have h2 : (l.asString).toList = ("" : String).toList := by rw [hc]
  rw [toList_asString] at h2
  simpa using h2

/-- Inverting the extractor's `try`/`except`: a `some` result is the
record built from a successful price parse. -/
theorem extract_eq_some (doc : Doc) (url : String) (p : Product)
    (hp : extract_product_data_from_soup doc url = some p) :
    ∃ price, priceOf doc = Except.ok price ∧ p = productOf doc url price := by
  unfold extract_product_data_from_soup extractBody at hp
  cases h : priceOf doc with
  | ok price =>
    rw [h] at hp
    exact ⟨price, rfl, (Option.some_injective _ hp).symm⟩
  | error e => rw [h] at hp; exact absurd hp (by simp)

theorem productOf_sku (doc : Doc) (url : String) (price : Rat) :
    (productOf doc url price).sku = skuOf doc url := rfl

theorem productOf_images (doc : Doc) (url : String) (price : Rat) :
    (productOf doc url price).images = imagesOf doc url := rfl

/-- The else-branch of the SKU rule: the code derives the slug whenever
the element is missing, falsy, or carries the placeholder. -/
theorem skuOf_fallback (doc : Doc) (url : String)
    (h : doc.selectOne ".sku" = none ∨
      ∃ e, doc.selectOne ".sku" = some e ∧
        (e.truthy = false ∨ pyLower e.text = "n/a")) :
    skuOf doc url = codeDerivedSku url := by
  unfold skuOf
  rcases h with h | ⟨e, he, hcase⟩
  · rw [h]
  · rw [he]
    show (if e.truthy = true ∧ pyLower e.text ≠ "n/a" then e.text
      else codeDerivedSku url) = codeDerivedSku url
    have hneg : ¬(e.truthy = true ∧ pyLower e.text ≠ "n/a") := by
      rcases hcase with h1 | h1
      · intro hcontra; rw [h1] at hcontra; exact absurd hcontra.1 (by simp)
      · intro hcontra; exact hcontra.2 h1
    rw [if_neg hneg]

theorem skuOf_elem (doc : Doc) (url : String) (e : Elem)
    (he : doc.selectOne ".sku" = some e) (ht : e.truthy = true)
    (hna : pyLower e.text ≠ "n/a") : skuOf doc url = e.text := by
  unfold skuOf
  rw [he]
  show (if e.truthy = true ∧ pyLower e.text ≠ "n/a" then e.text
    else codeDerivedSku url) = e.text
  rw [if_pos ⟨ht, hna⟩]

/-- The sanitized slug is non-empty as soon as the decoded slug contains
one alphanumeric character. -/
theorem codeDerivedSku_ne_empty (url : String)
    (h : ∃ c ∈ slugOf url, keepChar c = true) : codeDerivedSku url ≠ "" := by
  unfold codeDerivedSku
  apply asString_ne_empty
  apply take_ne_nil_of_ne_nil _ _ _ (by omega)
  rcases collapseAux_keep_mem (slugOf url) false h with ⟨c, hc, hkc⟩
  have hne : (c == '-') = false := by
    by_cases hcd : c = '-'
    · subst hcd; simp [keepChar, Char.isAlphanum, Char.isAlpha, Char.isDigit] at hkc
    · simpa using hcd
  exact List.ne_nil_of_mem (mem_pyStrip_of_ne '-' _ c hc hne)

/-- Characters of the sanitized slug lie in the safe charset, and its
length is at most 50. -/
theorem codeDerivedSku_bounds (url : String) :
    (codeDerivedSku url).length ≤ 50 ∧
    ∀ c ∈ (codeDerivedSku url).toList, keepChar c = true ∨ c = '-' := by
  constructor
  · show ((pyStrip '-' (collapseRuns (slugOf url))).take 50).asString.length ≤ 50
    rw [length_asString]
    exact List.length_take_le 50 _
  · intro c hc
    rw [show (codeDerivedSku url).toList =
      (pyStrip '-' (collapseRuns (slugOf url))).take 50 from rfl] at hc
    have h1 : c ∈ pyStrip '-' (collapseRuns (slugOf url)) := List.take_subset _ _ hc
    have h2 : c ∈ collapseRuns (slugOf url) := mem_of_mem_pyStrip _ _ _ h1
    exact collapseAux_chars _ _ _ h2

/-- Every character of the derived sku is the separator or a character
of the decoded slug (strip and truncation only remove characters). -/
theorem codeDerivedSku_chars_src (url : String) :
    ∀ c ∈ (codeDerivedSku url).toList, c = '-' ∨ c ∈ slugOf url := by
  intro c hc
  rw [show (codeDerivedSku url).toList =
    (pyStrip '-' (collapseRuns (slugOf url))).take 50 from rfl] at hc
  have h1 : c ∈ pyStrip '-' (collapseRuns (slugOf url)) := List.take_subset _ _ hc
  have h2 : c ∈ collapseRuns (slugOf url) := mem_of_mem_pyStrip _ _ _ h1
  exact collapseAux_src_mem _ _ _ h2

theorem collectProductLinks_ok (doc : Doc)
    (h : ∀ e ∈ doc.select "h3.wd-entities-title a",
      (e.attrs.lookup "href").isSome = true) :
    ∃ links, collectProductLinks doc = Except.ok links := by
  unfold collectProductLinks
  obtain ⟨l, hl⟩ : ∃ l, doc.select "h3.wd-entities-title a" = l := ⟨_, rfl⟩
  rw [hl] at h ⊢
  clear hl
  induction l with
  | nil => exact ⟨[], rfl⟩
  | cons e es ih =>
    have he := h e (List.mem_cons_self _ _)
    cases hx : e.attrs.lookup "href" with
    | none => rw [hx] at he; exact absurd he (by simp)
    | some v =>
      rcases ih (fun e' he' => h e' (List.mem_cons_of_mem _ he')) with ⟨ls, hls⟩
      refine ⟨v :: ls, ?_⟩
      simp [collectHrefs, hx, hls]

/-- A successful link collection determines the whole run. -/
theorem categoryRunAfterFetch_ok (fetchF : String → Option Product)
    (postF : String → PostOutcome) (apiUrl apiKey : Option String) (limit : Nat)
    (store : List String) (doc : Doc) (links : List String)
    (hc : collectProductLinks doc = Except.ok links) :
    categoryRunAfterFetch fetchF postF apiUrl apiKey limit store doc =
      Except.ok ⟨crawlLoop fetchF postF apiUrl apiKey limit
        (links.dedup.filter (fun u => decide (u ∉ store))) ⟨0, store, [], false⟩,
        decide ((crawlLoop fetchF postF apiUrl apiKey limit
          (links.dedup.filter (fun u => decide (u ∉ store)))
          ⟨0, store, [], false⟩).count = 0)⟩ := by
  unfold categoryRunAfterFetch
  rw [hc]

/-! ### Concrete documents and environments used as witnesses -/

/-- A product page with no recognized elements at all. -/
def emptyDoc : Doc := ⟨fun _ => none, fun _ => [], none⟩

/-- An anchor of a listing page, as produced by
`h3.wd-entities-title a`. -/
def mkAnchor (u : String) : Elem := ⟨true, "", [("href", u)]⟩

/-- A sample product record, used where the fetch outcome is fixed. -/
def sampleProduct : Product :=
  ⟨"sample-sku", "Sample", "", 0, "PendingReview", [], [], "",
   "https://s.example/sample/", "", 0⟩

def c1Urls : List String :=
  ["https://s.example/p0/", "https://s.example/p1/", "https://s.example/p2/",
   "https://s.example/p3/", "https://s.example/p4/", "https://s.example/p5/",
   "https://s.example/p6/", "https://s.example/p7/", "https://s.example/p8/",
   "https://s.example/p9/"]

/-- A listing page with ten product links. -/
def c1Doc : Doc :=
  ⟨fun _ => none,
   fun s => if s = "h3.wd-entities-title a" then c1Urls.map mkAnchor else [],
   none⟩

/-- Three of the ten links are already in the Dedup Store. -/
def c1Store : List String :=
  ["https://s.example/p0/", "https://s.example/p1/", "https://s.example/p2/"]

/-- The seven remaining links. -/
def c1NewUrls : List String :=
  ["https://s.example/p3/", "https://s.example/p4/", "https://s.example/p5/",
   "https://s.example/p6/", "https://s.example/p7/", "https://s.example/p8/",
   "https://s.example/p9/"]

/-- Every fetch succeeds. -/
def c1Fetch : String → Option Product := fun _ => some sampleProduct

/-- Every POST receives a 200 response. -/
def c1Post : String → PostOutcome := fun _ => PostOutcome.resp 200 "ok"

/-! ### Claims -/

/-- C1: In category mode, the per-run item count processed never exceeds
CRAWL_LIMIT; in particular, for a listing page with 10 product links of
which 3 are already in the Dedup Store and CRAWL_LIMIT=5 (every
fetch/submission succeeding, as in the spec's end-to-end scenario C),
exactly 5 of the remaining 7 URLs are attempted before the run stops and
reports the limit was reached. -/
theorem c1_crawl_limit :
    (∀ (fetchF : String → Option Product) (postF : String → PostOutcome)
        (apiUrl apiKey : Option String) (limit : Nat) (store : List String)
        (doc : Doc) (r : RunReport),
        categoryRunAfterFetch fetchF postF apiUrl apiKey limit store doc = Except.ok r →
        r.state.count ≤ limit) ∧
    (∃ r, categoryRunAfterFetch c1Fetch c1Post (some "https://api.example") (some "key")
        5 c1Store c1Doc = Except.ok r ∧
      r.state.attempted.length = 5 ∧ r.state.count = 5 ∧ r.state.limitHit = true ∧
      ∀ u ∈ r.state.attempted, u ∈ c1NewUrls) := by
  constructor
  · intro fetchF postF apiUrl apiKey limit store doc r hrun
    unfold categoryRunAfterFetch at hrun
    cases hc : collectProductLinks doc with
    | error e => rw [hc] at hrun; exact absurd hrun (by simp)
    | ok links =>
      rw [hc] at hrun
      have hr : r = ⟨crawlLoop fetchF postF apiUrl apiKey limit
          ((links.dedup).filter (fun u => decide (u ∉ store))) ⟨0, store, [], false⟩,
          decide ((crawlLoop fetchF postF apiUrl apiKey limit
            ((links.dedup).filter (fun u => decide (u ∉ store)))
            ⟨0, store, [], false⟩).count = 0)⟩ := by
        cases hrun
        rfl
      rw [hr]
      exact crawlLoop_count_le fetchF postF apiUrl apiKey limit _ _ (Nat.zero_le _)
  · exact ⟨_, rfl, by decide, by decide, by decide, by decide⟩

theorem c1_crawl_limit_witness :
    ∃ r, categoryRunAfterFetch c1Fetch c1Post (some "https://api.example") (some "key")
        5 c1Store c1Doc = Except.ok r ∧ r.state.count ≤ 5 :=
  ⟨_, rfl, c1_crawl_limit.1 c1Fetch c1Post (some "https://api.example") (some "key")
    5 c1Store c1Doc _ rfl⟩

/-- A listing page with a single product link, for the C2 scenarios. -/
def c2Doc : Doc :=
  ⟨fun _ => none,
   fun s => if s = "h3.wd-entities-title a" then [mkAnchor "https://s.example/c2/"] else [],
   none⟩

/-- C2 (counterexample): a 304 submission response is not a 2xx, yet
`raise_for_status` does not raise for it, `send_product_to_api` returns
True, and the URL IS appended to the Dedup Store — refuting "a non-2xx
submission response leaves the URL absent". -/
theorem c2_counterexample :
    (∃ r, categoryRunAfterFetch c1Fetch (fun _ => PostOutcome.resp 304 "")
        (some "https://api.example") (some "key") 5 [] c2Doc = Except.ok r ∧
      "https://s.example/c2/" ∈ r.state.log) ∧
    ¬(200 ≤ 304 ∧ 304 ≤ 299) :=
  ⟨⟨_, rfl, by decide⟩, by decide⟩

/-- C2 (amended): a URL not already in the store is in the final log
only if fetch+extract produced a product for it and
`send_product_to_api` returned True for it (which, per C8, means a
response with status outside 400-599, not necessarily 2xx); whenever
fetch/extract failed or the submission returned False, the URL is left
absent, so a future run re-attempts it. -/
theorem c2_dedup_append_only_on_success (fetchF : String → Option Product)
    (postF : String → PostOutcome) (apiUrl apiKey : Option String) (limit : Nat)
    (store : List String) (doc : Doc) (r : RunReport) (u : String)
    (hrun : categoryRunAfterFetch fetchF postF apiUrl apiKey limit store doc = Except.ok r)
    (hu : u ∉ store) :
    (u ∈ r.state.log →
      ∃ p, fetchF u = some p ∧
        (send_product_to_api apiUrl apiKey (postF u) p).ok = true) ∧
    ((fetchF u = none ∨ ∀ p, fetchF u = some p →
        (send_product_to_api apiUrl apiKey (postF u) p).ok = false) →
      u ∉ r.state.log) := by
  have hmain : u ∈ r.state.log →
      ∃ p, fetchF u = some p ∧
        (send_product_to_api apiUrl apiKey (postF u) p).ok = true := by
    intro hmem
    unfold categoryRunAfterFetch at hrun
    cases hc : collectProductLinks doc with
    | error e => rw [hc] at hrun; exact absurd hrun (by simp)
    | ok links =>
      rw [hc] at hrun
      have hr : r.state = crawlLoop fetchF postF apiUrl apiKey limit
          ((links.dedup).filter (fun v => decide (v ∉ store))) ⟨0, store, [], false⟩ := by
        cases hrun
        rfl
      rw [hr] at hmem
      rcases crawlLoop_log_mem fetchF postF apiUrl apiKey limit _ _ u hmem with h | ⟨_, hp⟩
      · exact absurd h hu
      · exact hp
  refine ⟨hmain, fun hfail hmem => ?_⟩
  rcases hmain hmem with ⟨p, hfp, hok⟩
  rcases hfail with h | h
  · rw [h] at hfp; exact absurd hfp (by simp)
  · rw [h p hfp] at hok; exact absurd hok (by simp)

theorem c2_dedup_append_witness :
    ∃ r, categoryRunAfterFetch c1Fetch c1Post (some "https://api.example") (some "key")
        5 [] c2Doc = Except.ok r ∧
      ("https://s.example/c2/" ∈ r.state.log →
        ∃ p, c1Fetch "https://s.example/c2/" = some p ∧
          (send_product_to_api (some "https://api.example") (some "key")
            (c1Post "https://s.example/c2/") p).ok = true) :=
  ⟨_, rfl, (c2_dedup_append_only_on_success c1Fetch c1Post (some "https://api.example")
    (some "key") 5 [] c2Doc _ "https://s.example/c2/" rfl (by simp)).1⟩

/-- C3: For every document with no SKU element, or whose SKU element
text is the placeholder "n/a" (case-insensitively), the extracted sku is
the last non-empty path segment of the source URL, percent-decoded, with
every run of non-alphanumerics replaced by one separator, trimmed of
leading/trailing separators, and truncated to at most 50 characters. -/
theorem c3_sku_fallback (doc : Doc) (url : String) (p : Product)
    (hsku : doc.selectOne ".sku" = none ∨
      ∃ e, doc.selectOne ".sku" = some e ∧ pyLower e.text = "n/a")
    (hp : extract_product_data_from_soup doc url = some p) :
    p.sku = specDerivedSku url := by
  rcases extract_eq_some doc url p hp with ⟨price, _, rfl⟩
  rw [productOf_sku]
  rw [skuOf_fallback doc url ?_]
  · exact codeDerivedSku_eq_spec url
  · rcases hsku with h | ⟨e, he, hna⟩
    · exact Or.inl h
    · exact Or.inr ⟨e, he, Or.inr hna⟩

theorem c3_sku_fallback_witness :
    specDerivedSku "https://shop.example/products/blue-mug-7/" = "blue-mug-7" ∧
    ∃ p, extract_product_data_from_soup emptyDoc
        "https://shop.example/products/blue-mug-7/" = some p ∧
      p.sku = specDerivedSku "https://shop.example/products/blue-mug-7/" :=
  ⟨by decide,
   ⟨_, rfl, c3_sku_fallback emptyDoc "https://shop.example/products/blue-mug-7/" _
      (Or.inl rfl) rfl⟩⟩

/-- C4 (counterexample): a URL whose last path segment has no
alphanumeric character ("!!!") sanitizes to the empty string, so the
URL-slug fallback CAN produce an empty sku — refuting "the Product
returned by the Extractor always has a non-empty sku". -/
theorem c4_counterexample :
    ∃ p, extract_product_data_from_soup emptyDoc "https://shop.example/!!!/" = some p ∧
      p.sku = "" :=
  ⟨_, rfl, by decide⟩

/-- C4 (amended): the sku is non-empty provided the SKU element supplies
non-empty, non-placeholder text, or — in the URL fallback — the decoded
slug contains at least one alphanumeric character; a slug with no
alphanumeric characters (or an empty SKU-element text) yields an empty
sku. -/
theorem c4_sku_nonempty_amended (doc : Doc) (url : String) (p : Product)
    (hp : extract_product_data_from_soup doc url = some p)
    (h : (∃ e, doc.selectOne ".sku" = some e ∧ e.truthy = true ∧
            pyLower e.text ≠ "n/a" ∧ e.text ≠ "") ∨
         ((doc.selectOne ".sku" = none ∨
            ∃ e, doc.selectOne ".sku" = some e ∧
              (e.truthy = false ∨ pyLower e.text = "n/a")) ∧
          ∃ c ∈ slugOf url, keepChar c = true)) :
    p.sku ≠ "" := by
  rcases extract_eq_some doc url p hp with ⟨price, _, rfl⟩
  rw [productOf_sku]
  rcases h with ⟨e, he, ht, hna, hne⟩ | ⟨hfb, hslug⟩
  · rw [skuOf_elem doc url e he ht hna]
    exact hne
  · rw [skuOf_fallback doc url hfb]
    exact codeDerivedSku_ne_empty url hslug

theorem c4_sku_nonempty_witness :
    ∃ p, extract_product_data_from_soup emptyDoc
        "https://shop.example/products/blue-mug-7/" = some p ∧ p.sku ≠ "" :=
  ⟨_, rfl, c4_sku_nonempty_amended emptyDoc "https://shop.example/products/blue-mug-7/" _
    rfl (Or.inr ⟨Or.inl rfl, by decide⟩)⟩

/-- A product page whose SKU element carries 51 characters of text. -/
def c5Doc : Doc :=
  ⟨fun s => if s = ".sku" then some ⟨true, (List.replicate 51 'A').asString, []⟩ else none,
   fun _ => [], none⟩

/-- A product page whose SKU element text contains a space. -/
def c5DocB : Doc :=
  ⟨fun s => if s = ".sku" then some ⟨true, "SKU 12/34", []⟩ else none,
   fun _ => [], none⟩

/-- C5 (counterexample): a sku taken from a dedicated SKU element is
used verbatim — neither truncated to 50 characters nor sanitized —
refuting "at most 50 characters and a URL/filename-safe charset
regardless of the sku's origin". -/
theorem c5_counterexample :
    (∃ p, extract_product_data_from_soup c5Doc "https://shop.example/x/" = some p ∧
      50 < p.sku.length) ∧
    (∃ q, extract_product_data_from_soup c5DocB "https://shop.example/x/" = some q ∧
      ' ' ∈ q.sku.toList ∧ '/' ∈ q.sku.toList) :=
  ⟨⟨_, rfl, by decide⟩, ⟨_, rfl, by decide, by decide⟩⟩

/-- C5 (amended): a sku derived from the URL (the fallback branch) is
truncated to at most 50 characters; every one of its characters is
either the separator `'-'` or a character of the percent-decoded slug;
and every ASCII character in it is alphanumeric or `'-'`.  Nothing more
is asserted about non-ASCII characters: Python's Unicode-aware `\w`
keeps non-ASCII word characters (e.g. Persian letters and digits) in
the sku, so the output charset is "word characters plus separator", not
an ASCII-safe set.  A sku taken from a truthy, non-placeholder SKU
element is that element's stripped text verbatim, with no truncation
and no sanitization. -/
theorem c5_sku_bounds_amended (doc : Doc) (url : String) (p : Product)
    (hp : extract_product_data_from_soup doc url = some p) :
    ((doc.selectOne ".sku" = none ∨
       ∃ e, doc.selectOne ".sku" = some e ∧
         (e.truthy = false ∨ pyLower e.text = "n/a")) →
      p.sku.length ≤ 50 ∧
      (∀ c ∈ p.sku.toList, c = '-' ∨ c ∈ slugOf url) ∧
      (∀ c ∈ p.sku.toList, c.val < 128 → (keepChar c = true ∨ c = '-'))) ∧
    (∀ e, doc.selectOne ".sku" = some e → e.truthy = true →
      pyLower e.text ≠ "n/a" → p.sku = e.text) := by
  rcases extract_eq_some doc url p hp with ⟨price, _, rfl⟩
  constructor
  · intro hfb
    rw [productOf_sku, skuOf_fallback doc url hfb]
    refine ⟨(codeDerivedSku_bounds url).1, codeDerivedSku_chars_src url, ?_⟩
    intro c hc _
    exact (codeDerivedSku_bounds url).2 c hc
  · intro e he ht hna
    rw [productOf_sku, skuOf_elem doc url e he ht hna]

theorem c5_sku_bounds_witness :
    ∃ p, extract_product_data_from_soup emptyDoc
        "https://shop.example/products/blue-mug-7/" = some p ∧
      p.sku.length ≤ 50 ∧
      (∀ c ∈ p.sku.toList, c = '-' ∨
        c ∈ slugOf "https://shop.example/products/blue-mug-7/") ∧
      (∀ c ∈ p.sku.toList, c.val < 128 → (keepChar c = true ∨ c = '-')) :=
  ⟨_, rfl, (c5_sku_bounds_amended emptyDoc "https://shop.example/products/blue-mug-7/" _
    rfl).1 (Or.inl rfl)⟩

/-- The joined image URL produced by each gallery element, in discovery
order (before the uniqueness filter). -/
def imageCandidates (doc : Doc) (url : String) : List String :=
  (doc.select imageSelectors).filterMap (pickImageUrl url)

/-- C6: for every document extracted against an absolute http(s) source
URL, the images sequence has no duplicates and no relative URLs: every
entry carries a scheme and is the resolution of some gallery element's
attribute against the page URL, and discovery order is preserved (the
list is a subsequence of the per-element resolutions). -/
theorem c6_images_invariant (doc : Doc) (url : String) (p : Product)
    (habs : httpAbsolute url = true)
    (hp : extract_product_data_from_soup doc url = some p) :
    p.images.Nodup ∧
    (∀ u ∈ p.images, hasScheme u = true ∧
      ∃ e ∈ doc.select imageSelectors, pickImageUrl url e = some u) ∧
    p.images.Sublist (imageCandidates doc url) := by
  rcases extract_eq_some doc url p hp with ⟨price, _, rfl⟩
  rw [productOf_images]
  refine ⟨accumUnique_nodup _ _ [] List.nodup_nil, ?_, ?_⟩
  · intro u hu
    have hcand : u ∈ imageCandidates doc url := by
      unfold imagesOf at hu
      exact accumUnique_mem _ _ _ hu
    rcases List.mem_filterMap.mp hcand with ⟨e, he, hpe⟩
    refine ⟨?_, e, he, hpe⟩
    unfold pickImageUrl at hpe
    rcases Option.map_eq_some'.mp hpe with ⟨v, _, hv⟩
    rw [← hv]
    exact urljoin_hasScheme url v habs
  · unfold imagesOf
    simpa [imageCandidates] using
      accumUnique_sublist (pickImageUrl url) (doc.select imageSelectors) []

/-- A product page with three gallery elements, the third a duplicate of
the first. -/
def c6Doc : Doc :=
  ⟨fun _ => none,
   fun s => if s = imageSelectors then
      [⟨true, "", [("href", "/img/a.png")]⟩,
       ⟨true, "", [("src", "https://cdn.example/b.jpg")]⟩,
       ⟨true, "", [("href", "/img/a.png")]⟩]
    else [],
   none⟩

theorem c6_images_invariant_witness :
    httpAbsolute "https://shop.example/p/x/" = true ∧
    ∃ p, extract_product_data_from_soup c6Doc "https://shop.example/p/x/" = some p ∧
      (p.images.Nodup ∧
       (∀ u ∈ p.images, hasScheme u = true ∧
         ∃ e ∈ c6Doc.select imageSelectors, pickImageUrl "https://shop.example/p/x/" e = some u) ∧
       p.images.Sublist (imageCandidates c6Doc "https://shop.example/p/x/")) :=
  ⟨by decide, _, rfl,
   c6_images_invariant c6Doc "https://shop.example/p/x/" _ (by decide) rfl⟩

/-- C7: the extractor never raises past its boundary: for every document
and URL it either returns the record of a successfully evaluated body,
or — when the body raises an internal parse error — returns null; in the
shallow embedding, totality of `extract_product_data_from_soup` is the
absence of any third outcome. -/
theorem c7_extractor_total (doc : Doc) (url : String) :
    (∃ p, extractBody doc url = Except.ok p ∧
      extract_product_data_from_soup doc url = some p) ∨
    (∃ err, extractBody doc url = Except.error err ∧
      extract_product_data_from_soup doc url = none) := by
  unfold extract_product_data_from_soup
  cases h : extractBody doc url with
  | ok p => exact Or.inl ⟨p, rfl, rfl⟩
  | error err => exact Or.inr ⟨err, rfl, rfl⟩

/-- C8 (counterexample): a 304 response is not a 2xx, yet
`send_product_to_api` returns True for it (`raise_for_status` raises
only for 400-599); and on a 404 the response body is NOT surfaced — the
`if e.response:` truthiness check (`Response.__bool__ = ok`) suppresses
it for every error status. -/
theorem c8_counterexample :
    (send_product_to_api (some "https://api.example") (some "key")
        (PostOutcome.resp 304 "redirect") sampleProduct).ok = true ∧
    ¬(200 ≤ 304 ∧ 304 ≤ 299) ∧
    (send_product_to_api (some "https://api.example") (some "key")
        (PostOutcome.resp 404 "not found") sampleProduct).ok = false ∧
    (send_product_to_api (some "https://api.example") (some "key")
        (PostOutcome.resp 404 "not found") sampleProduct).surfacedBody = none := by
  decide

/-- C8 (amended): the submitter returns true iff both API_URL and
API_KEY are truthy (set and non-empty) and the POST received a response
whose status lies outside 400-599 (so any 1xx/2xx/3xx — not only 2xx —
yields true); it returns false on 4xx/5xx and on network failure, and
the response body is never surfaced (the truthiness check on the
response suppresses it); when API_URL or API_KEY is unset or empty no
POST is made and false is returned. -/
theorem c8_submitter_amended (apiUrl apiKey : Option String) (o : PostOutcome)
    (p : Product) :
    ((send_product_to_api apiUrl apiKey o p).ok = true ↔
      truthyOpt apiUrl = true ∧ truthyOpt apiKey = true ∧
        ∃ st b, o = PostOutcome.resp st b ∧ ¬(400 ≤ st ∧ st < 600)) ∧
    ((send_product_to_api apiUrl apiKey o p).posted = true ↔
      truthyOpt apiUrl = true ∧ truthyOpt apiKey = true) ∧
    (send_product_to_api apiUrl apiKey o p).surfacedBody = none :=
  ⟨send_ok_iff apiUrl apiKey o p, send_posted_iff apiUrl apiKey o p,
   send_surfacedBody_none apiUrl apiKey o p⟩

/-- C9: category mode is idempotent across runs: if the first run
processed every new URL of the (unchanged) listing successfully, the
second run against the store the first run left behind filters out every
link and submits, attempts and records nothing. -/
theorem c9_idempotent (fetchF : String → Option Product) (postF : String → PostOutcome)
    (apiUrl apiKey : Option String) (limit : Nat) (store : List String) (doc : Doc)
    (links : List String)
    (hc : collectProductLinks doc = Except.ok links)
    (hlen : (links.dedup.filter (fun u => decide (u ∉ store))).length ≤ limit)
    (hsucc : ∀ u ∈ links.dedup.filter (fun u => decide (u ∉ store)),
      ∃ p, fetchF u = some p ∧
        (send_product_to_api apiUrl apiKey (postF u) p).ok = true) :
    ∃ r1 r2,
      categoryRunAfterFetch fetchF postF apiUrl apiKey limit store doc = Except.ok r1 ∧
      categoryRunAfterFetch fetchF postF apiUrl apiKey limit r1.state.log doc
        = Except.ok r2 ∧
      r2.state.count = 0 ∧ r2.state.attempted = [] ∧ r2.state.log = r1.state.log := by
  have hloop := crawlLoop_all_success fetchF postF apiUrl apiKey limit
    (links.dedup.filter (fun u => decide (u ∉ store))) ⟨0, store, [], false⟩ hsucc (by simpa using hlen)
  have hloop1 : crawlLoop fetchF postF apiUrl apiKey limit
      (links.dedup.filter (fun u => decide (u ∉ store))) ⟨0, store, [], false⟩ =
      ⟨0 + (links.dedup.filter (fun u => decide (u ∉ store))).length,
       store ++ links.dedup.filter (fun u => decide (u ∉ store)),
       links.dedup.filter (fun u => decide (u ∉ store)), false⟩ := by
    rw [hloop]
    rfl
  have hrun1 : categoryRunAfterFetch fetchF postF apiUrl apiKey limit store doc =
      Except.ok ⟨⟨0 + (links.dedup.filter (fun u => decide (u ∉ store))).length,
        store ++ links.dedup.filter (fun u => decide (u ∉ store)),
        links.dedup.filter (fun u => decide (u ∉ store)), false⟩,
        decide (0 + (links.dedup.filter (fun u => decide (u ∉ store))).length = 0)⟩ := by
    rw [categoryRunAfterFetch_ok fetchF postF apiUrl apiKey limit store doc links hc]
    rw [hloop1]
  have hfilter2 : links.dedup.filter (fun u => decide
      (u ∉ store ++ links.dedup.filter (fun v => decide (v ∉ store)))) = [] := by
    rw [List.filter_eq_nil_iff]
    intro u hu
    simp only [decide_eq_true_eq, not_not]
    by_cases hs : u ∈ store
    · exact List.mem_append.mpr (Or.inl hs)
    · refine List.mem_append.mpr (Or.inr ?_)
      exact List.mem_filter.mpr ⟨hu, by simpa using hs⟩
  have hrun2 : categoryRunAfterFetch fetchF postF apiUrl apiKey limit
      (store ++ links.dedup.filter (fun u => decide (u ∉ store))) doc =
      Except.ok ⟨⟨0, store ++ links.dedup.filter (fun u => decide (u ∉ store)), [], false⟩, true⟩ := by
    rw [categoryRunAfterFetch_ok fetchF postF apiUrl apiKey limit
      (store ++ links.dedup.filter (fun u => decide (u ∉ store))) doc links hc]
    rw [hfilter2]
    rfl
  exact ⟨_, _, hrun1, hrun2, rfl, rfl, rfl⟩

/-- A listing page with two product links. -/
def c9Doc : Doc :=
  ⟨fun _ => none,
   fun s => if s = "h3.wd-entities-title a" then
      [mkAnchor "https://s.example/q1/", mkAnchor "https://s.example/q2/"] else [],
   none⟩

theorem c9_idempotent_witness :
    ∃ r1 r2,
      categoryRunAfterFetch c1Fetch c1Post (some "https://api.example") (some "key")
        5 [] c9Doc = Except.ok r1 ∧
      categoryRunAfterFetch c1Fetch c1Post (some "https://api.example") (some "key")
        5 r1.state.log c9Doc = Except.ok r2 ∧
      r2.state.count = 0 ∧ r2.state.attempted = [] ∧ r2.state.log = r1.state.log :=
  c9_idempotent c1Fetch c1Post (some "https://api.example") (some "key") 5 [] c9Doc
    ["https://s.example/q1/", "https://s.example/q2/"] rfl (by decide)
    (by intro u hu; exact ⟨sampleProduct, rfl, rfl⟩)

/-- A listing page whose only selected anchor has no `href` attribute. -/
def c10BadDoc : Doc :=
  ⟨fun _ => none,
   fun s => if s = "h3.wd-entities-title a" then [⟨true, "no href", []⟩] else [],
   none⟩

/-- C10 (counterexample): a listing document containing a product-title
anchor without an `href` raises an uncaught `KeyError` in the link
comprehension (the surrounding `except` catches only
`RequestException`), so the run dies before the terminal "finished"
report — refuting "for every listing document the run always reaches the
finished report". -/
theorem c10_counterexample :
    categoryRunAfterFetch (fun _ => none) (fun _ => PostOutcome.netErr) none none 5 []
      c10BadDoc = Except.error () := rfl

/-- C10 (amended): provided every selected product-title anchor carries
an `href` attribute, the category run — for every per-item
fetch/extract/submit outcome and every configuration — always reaches
the terminal "finished" report after the listing page has been
fetched. -/
theorem c10_no_crash_amended (fetchF : String → Option Product)
    (postF : String → PostOutcome) (apiUrl apiKey : Option String) (limit : Nat)
    (store : List String) (doc : Doc)
    (h : ∀ e ∈ doc.select "h3.wd-entities-title a",
      (e.attrs.lookup "href").isSome = true) :
    ∃ r, categoryRunAfterFetch fetchF postF apiUrl apiKey limit store doc
      = Except.ok r := by
  rcases collectProductLinks_ok doc h with ⟨links, hl⟩
  unfold categoryRunAfterFetch
  rw [hl]
  exact ⟨_, rfl⟩

/-- A listing page with one well-formed product link. -/
def c10GoodDoc : Doc :=
  ⟨fun _ => none,
   fun s => if s = "h3.wd-entities-title a" then [mkAnchor "https://s.example/c10/"]
     else [],
   none⟩

theorem c10_no_crash_witness :
    ∃ r, categoryRunAfterFetch (fun _ => none) (fun _ => PostOutcome.netErr) none none 5 []
      c10GoodDoc = Except.ok r :=
  c10_no_crash_amended (fun _ => none) (fun _ => PostOutcome.netErr) none none 5 []
    c10GoodDoc (by decide)

end Crawler
